import Mathlib

/-!
Verification development for the `@oy3o/rollup-plugin-html` Rollup plugin
(`src/rollup-plugin-html.js`).  The plugin parses HTML inputs, extracts
script/style content in one traversal (`traverse` inside the `options` hook),
hands the discovered entry points to Rollup, and later (`generateBundle`)
rewrites the stored trees and emits the final HTML assets.

The JavaScript source is shallowly embedded below.  Dynamically-typed
subexpressions that matter for control flow (`src && !src.value.includes(..)`,
template-literal interpolation of a possibly-`undefined` variable,
`=== true` checks on arbitrary option values) are modelled with an explicit
small JS value type `JsVal`, so that e.g. reading the absent property `value`
of a string yields `undefined` and calling `.includes` on `undefined` raises a
`TypeError`, exactly as in JavaScript.
-/

namespace Rph

/-! ### JavaScript string primitives -/

/-- The character class of the JS regex `\s` (WhiteSpace ∪ LineTerminator):
also used by `String.prototype.trim`/`trimStart`/`trimEnd`. -/
def isJsSpace (c : Char) : Bool :=
  c == ' ' || c == '\t' || c == '\n' || c == '\r' || c == '\x0b' || c == '\x0c' ||
  c == '\u00A0' || c == '\u1680' || ('\u2000' ≤ c && c ≤ '\u200A') ||
  c == '\u2028' || c == '\u2029' || c == '\u202F' || c == '\u205F' ||
  c == '\u3000' || c == '\uFEFF'

/-- `value.replace(/\s+/g, ' ')` on the underlying character list: every
maximal run of whitespace becomes a single space.  The boolean flag records
whether the previous character was part of a whitespace run. -/
def collapseWsAux : Bool → List Char → List Char
  | _, [] => []
  | inRun, c :: cs =>
    if isJsSpace c then
      if inRun then collapseWsAux true cs else ' ' :: collapseWsAux true cs
    else c :: collapseWsAux false cs

/-- `value.replace(/\s+/g, ' ')`. -/
def jsCollapseWs (s : String) : String := ⟨collapseWsAux false s.data⟩

/-- `String.prototype.trimStart`. -/
def jsTrimStart (s : String) : String := ⟨s.data.dropWhile isJsSpace⟩

/-- `String.prototype.trimEnd`. -/
def jsTrimEnd (s : String) : String := ⟨(s.data.reverse.dropWhile isJsSpace).reverse⟩

/-- `String.prototype.trim` (trims both ends). -/
def jsTrim (s : String) : String := jsTrimEnd (jsTrimStart s)

/-- Whether the first character list is an initial segment of the second. -/
def leadsWith : List Char → List Char → Bool
  | [], _ => true
  | _ :: _, [] => false
  | p :: ps, c :: cs => p == c && leadsWith ps cs

/-- Whether the first character list occurs contiguously inside the second. -/
def occursIn (pat : List Char) : List Char → Bool
  | [] => leadsWith pat []
  | c :: cs => leadsWith pat (c :: cs) || occursIn pat cs

/-- `String.prototype.includes`: substring containment. -/
def strContains (s pat : String) : Bool := occursIn pat.data s.data

/-- `String.prototype.startsWith`. -/
def jsStartsWith (s pat : String) : Bool := leadsWith pat.data s.data

/-! ### A small dynamic JS value model

Only what the embedded expressions need: `undefined`, booleans, strings and
numbers. -/

inductive JsVal where
  | undefV
  | boolV (b : Bool)
  | strV (s : String)
  | numV (n : Int)
deriving DecidableEq, Repr

/-- JS truthiness. -/
def jsTruthy : JsVal → Bool
  | .undefV => false
  | .boolV b => b
  | .strV s => !s.isEmpty
  | .numV n => n != 0

/-- An optional string attribute value as a JS value (an absent attribute
reads as `undefined`). -/
def jsOfOptStr : Option String → JsVal
  | none => .undefV
  | some s => .strV s

inductive JsErr where
  | typeError
deriving DecidableEq, Repr

/-- JS property read, modelled for the accesses the source performs.  Reading
any property of `undefined` throws a `TypeError`; a primitive string has no
own property named `value`, so `someString.value` evaluates to `undefined`. -/
def jsGetProp : JsVal → String → Except JsErr JsVal
  | .undefV, _ => .error .typeError
  | .strV _, "value" => .ok .undefV
  | _, _ => .ok .undefV

/-- `v.includes(pat)`: method call on a JS value.  On a string it is substring
containment; on `undefined` it throws a `TypeError`. -/
def jsIncludes (v : JsVal) (pat : String) : Except JsErr Bool :=
  match v with
  | .strV s => .ok (strContains s pat)
  | _ => .error .typeError

/-- Template-literal interpolation `${v}`: `undefined` prints as the string
`"undefined"`. -/
def jsTemplateStr : JsVal → String
  | .undefV => "undefined"
  | .boolV b => if b then "true" else "false"
  | .strV s => s
  | .numV n => toString n

/-! ### POSIX path model (`node:path`)

Paths are normalized to lists of components; `""`, `"."` and `".."` segments
are folded away exactly as `path.resolve` does (`".."` at the root stays at
the root). -/

/-- Split a character list at every occurrence of a separator (the semantics
of JS `String.prototype.split` with a single-character separator). -/
def splitChars (sep : Char) : List Char → List (List Char)
  | [] => [[]]
  | c :: cs =>
    match splitChars sep cs with
    | [] => [[]]
    | h :: t => if c == sep then [] :: h :: t else (c :: h) :: t

def splitOnChar (sep : Char) (s : String) : List String :=
  (splitChars sep s.data).map (fun l => ⟨l⟩)

def splitPath (s : String) : List String := (splitOnChar '/' s).filter (fun c => c ≠ "")

def normStep (acc : List String) (seg : String) : List String :=
  if seg = "." then acc
  else if seg = ".." then acc.dropLast
  else acc ++ [seg]

/-- `path.resolve(base, p)` where `base` is an already-absolute directory
given as its component list. -/
def resolveSegs (base : List String) (p : String) : List String :=
  if jsStartsWith p "/" then (splitPath p).foldl normStep []
  else (base ++ splitPath p).foldl normStep []

/-- `path.dirname` on a component list. -/
def dirnameSegs (l : List String) : List String := l.dropLast

/-- Longest-common-prefix stripping used by `path.relative`. -/
def stripCommon : List String → List String → List String × List String
  | a :: as, b :: bs => if a = b then stripCommon as bs else (a :: as, b :: bs)
  | as, bs => (as, bs)

def joinSegs (l : List String) : String := String.intercalate "/" l

/-- `path.relative(f, t)` for two absolute component lists (POSIX). -/
def pathRelative (f t : List String) : String :=
  let p := stripCommon f t
  joinSegs (p.1.map (fun _ => "..") ++ p.2)

/-- `path.basename` (POSIX): last non-empty component, `""` for rootish
inputs. -/
def basename (s : String) : String := (splitPath s).getLastD ""

/-! ### Plugin constants and configuration -/

/-- `NOOP_IMPORT_ID` (source line 71). -/
def noopImportId : String := "\x00oy3o-rollup-plugin-htmlplugin:noop"

/-- `INLINE_MODULE_PREFIX` (source line 72). -/
def inlineModuleNs : String := "\x00oy3o-rollup-plugin-html-inline:"

/-- Prefix of the placeholder comment text. -/
def placeholderMark : String := "__HTML_MODULE_PLACEHOLDER_"

/-- The raw user options that matter for the modelled behaviour.  A field
holds the arbitrary JS value the user passed (`.undefV` when omitted). -/
structure PluginOptions where
  preserveStructure : JsVal
  removeComments : JsVal
  compressWhitespace : JsVal
  lightningcssMinify : Option JsVal
deriving Repr, DecidableEq

/-- The derived `config` object (source lines 93-108). -/
structure Config where
  preserveStructure : Bool
  removeComments : Bool
  compressWhitespace : Bool
  cssMinifyEnabled : Bool
deriving Repr, DecidableEq

/-- Source lines 93-108:
`preserveStructure: options.preserveStructure === true`,
`removeComments: options.removeComments !== false`,
`compressWhitespace: options.compressWhitespace || false`,
and for the style pass the guard `config.lightningcss.minify !== false`,
where `config.lightningcss.minify` is the user value if the user supplied
one (object spread) and `true` otherwise. -/
def mkConfig (o : PluginOptions) : Config :=
  { preserveStructure := o.preserveStructure == .boolV true
    removeComments := !(o.removeComments == .boolV false)
    compressWhitespace := jsTruthy o.compressWhitespace
    cssMinifyEnabled :=
      match o.lightningcssMinify with
      | some v => !(v == .boolV false)
      | none => true }

/-! ### The parse5 tree model

parse5 nodes are duck-typed records; the extraction pass distinguishes them by
`nodeName` (`#comment`, `#text`, element tag names).  `ContentOpt` is the
optional `content` document fragment a `<template>` element carries; it is a
hand-rolled option so the whole tree is a plain mutual inductive. -/

mutual
inductive Node where
  | element (tag : String) (attrs : List (String × String)) (children : NodeList)
      (content : ContentOpt)
  | text (value : String)
  | comment (value : String)
inductive ContentOpt where
  | noContent
  | content (l : NodeList)
inductive NodeList where
  | nil
  | cons (head : Node) (tail : NodeList)
end

def NodeList.length : NodeList → Nat
  | .nil => 0
  | .cons _ t => t.length + 1

def NodeList.toList : NodeList → List Node
  | .nil => []
  | .cons h t => h :: t.toList

def NodeList.append : NodeList → NodeList → NodeList
  | .nil, l => l
  | .cons h t, l => .cons h (t.append l)

/-- `node.attrs?.find(attr => attr.name === n)?.value`: first attribute with
the given name. -/
def findAttr (attrs : List (String × String)) (n : String) : Option String :=
  (attrs.find? (fun a => a.1 = n)).map (fun a => a.2)

/-- `getTextContent` (source lines 48-53): value of the first child if it is a
text node, `''` otherwise. -/
def getTextContent : Node → String
  | .element _ _ (.cons (.text v) _) _ => v
  | _ => ""

/-- `setTextContent` on a child list (source lines 60-68): overwrite the first
child when it is a text node, otherwise unshift a fresh text node. -/
def setTextContentL (l : NodeList) (t : String) : NodeList :=
  match l with
  | .cons (.text _) rest => .cons (.text t) rest
  | l => .cons (.text t) l

/-! ### Extraction state -/

/-- One entry of the per-document `inlineModules` array
(`{ virtualId, code, value }`, source line 226). -/
structure InlineModule where
  virtualId : String
  code : String
  value : String
deriving Repr, DecidableEq

/-- Build-level state threaded through the traversal: the per-document
`inlineModules` array, the build-wide `rollupHtml` set of entry points
(insertion-ordered, as a JS `Set`), and the diagnostics written to the
console. -/
structure ExtractState where
  inlineModules : List InlineModule
  rollupHtml : List String
  warnings : List String
deriving Repr, DecidableEq

/-- `Set.prototype.add`: appends unless already present. -/
def setAdd (l : List String) (x : String) : List String :=
  if l.contains x then l else l ++ [x]

def initState : ExtractState := ⟨[], [], []⟩

/-- The `console.error` message of the style branch (source line 199). -/
def cssErrorMsg (docSrc e : String) : String :=
  "[@oy3o/rollup-plugin-html] LightningCSS error in inline style (" ++ docSrc ++ "): " ++ e

/-- The whitespace-compression step of the text branch (source lines 239-248):
collapse `\s+` runs, then trim according to the position of the node among its
parent's children; `none` means the node is removed. -/
def compressTextValue (plen idx : Nat) (v : String) : Option String :=
  let compressed := jsCollapseWs v
  let compressed :=
    if plen > 1 then
      let c := if idx = 0 then jsTrimStart compressed else compressed
      if idx = plen - 1 then jsTrimEnd c else c
    else jsTrim compressed
  if compressed.isEmpty then none else some compressed

/-- `path.resolve(dir, v)` where `v` is a dynamic JS value (Node throws a
`TypeError` unless it is a string). -/
def pathResolveVal (dir : String) (v : JsVal) : Except JsErr String :=
  match v with
  | .strV s => .ok ("/" ++ joinSegs (resolveSegs (splitPath dir) s))
  | _ => .error .typeError

/-- Tag names whose text content is never whitespace-compressed
(source line 238). -/
def sensitiveTags : List String := ["pre", "textarea", "script", "style"]

/-- What `traverse` does to a `#text` node (source lines 235-250): text nodes
have no children, so this is the complete, non-recursive computation for
them; the state is never touched.  `ctx` is the parent context: the parent
`nodeName`, the number of children of the parent, and this node's position in
them (the source's `parent.childNodes[0] === node` identity tests are
positional in an alias-free parse5 tree). -/
def traverseTextNode (cfg : Config) (ctx : Option (String × Nat × Nat))
    (v : String) : Option Node :=
  match ctx with
  | some (ptag, plen, idx) =>
    if cfg.compressWhitespace && !(sensitiveTags.contains ptag) then
      (compressTextValue plen idx v).map .text
    else some (.text v)
  | none => some (.text v)

def consOpt (o : Option Node) (l : NodeList) : NodeList :=
  match o with
  | none => l
  | some n => .cons n l

/-! `Node.msize` is the size measure used for termination of the traversal:
the style branch recurses over children whose first text node was replaced,
which can add one fresh node, hence the slack on elements. -/
mutual
def Node.msize : Node → Nat
  | .element _ _ c ct => c.msize + ct.msize + 5
  | .text _ => 1
  | .comment _ => 1
def ContentOpt.msize : ContentOpt → Nat
  | .noContent => 0
  | .content l => l.msize + 1
def NodeList.msize : NodeList → Nat
  | .nil => 0
  | .cons h t => h.msize + t.msize + 1
end

/-- The script branch of the traversal (source lines 205-232); it never
recurses into the node's children, so it stands outside the mutual block.
`src` in the source is already the attribute's string value, so the
`src.value` reads below are JS `undefined`, and `.includes` on `undefined`
throws. -/
def scriptStep (dir : String) (tag : String) (attrs : List (String × String))
    (children : NodeList) (content : ContentOpt) (st : ExtractState) :
    Except JsErr (Option Node × ExtractState) :=
  let srcV := jsOfOptStr (findAttr attrs "src")
  let isModule := findAttr attrs "type" = some "module"
  -- `if (src && !src.value.includes('://'))`
  let cond : Except JsErr Bool :=
    if jsTruthy srcV then
      match jsGetProp srcV "value" with
      | .error e => .error e
      | .ok v =>
        match jsIncludes v "://" with
        | .error e => .error e
        | .ok b => .ok (!b)
    else .ok false
  match cond with
  | .error e => .error e
  | .ok c =>
    if c then
      -- `rollupHtml.add(path.resolve(dir, src.value)); return node`
      match jsGetProp srcV "value" with
      | .error e => .error e
      | .ok v =>
        match pathResolveVal dir v with
        | .error e => .error e
        | .ok p =>
          .ok (some (.element tag attrs children content),
               { st with rollupHtml := setAdd st.rollupHtml p })
    else
      let code := getTextContent (.element tag attrs children content)
      if !(jsTruthy srcV) && (jsTrim code).isEmpty then
        .ok (none, st)  -- `if (!src && !code.trim()) return null`
      else if isModule && !(jsTruthy srcV) then
        -- the virtual id interpolates the (shadowed) `src` attribute value,
        -- not the document path: `${INLINE_MODULE_PREFIX}${src}?index=N`
        let virtualId :=
          inlineModuleNs ++ jsTemplateStr srcV ++ "?index=" ++
            toString st.inlineModules.length
        let value := placeholderMark ++ virtualId ++ "__"
        .ok (some (.comment value),
             { st with
                rollupHtml := setAdd st.rollupHtml virtualId
                inlineModules := st.inlineModules ++ [⟨virtualId, code, value⟩] })
      else .ok (some (.element tag attrs children content), st)

/-! ### The extraction traversal (source lines 181-264)

The result is `none` where the source returns `null` (node removed); a raised
JS `TypeError` aborts the traversal as in the source, where it is caught by
the per-file handler that calls `this.error`.

In the style branch the source replaces the style text (`setTextContent`) and
then maps `traverse` over the modified child list.  Mapping over that list is
the traversal of its new first text child followed by the traversal of the
remaining original children; `traverse` on a text node is exactly
`traverseTextNode` (see the `.text` case below), so that first step is
inlined here, keeping the recursion structural. -/

mutual

def traverse (cfg : Config) (css : String → Except String String) (dir docSrc : String)
    (ctx : Option (String × Nat × Nat)) (node : Node) (st : ExtractState) :
    Except JsErr (Option Node × ExtractState) :=
  match node with
  | .comment v =>
    -- `if (node.nodeName === '#comment') return config.removeComments ? null : node`
    if cfg.removeComments then .ok (none, st) else .ok (some (.comment v), st)
  | .text v => .ok (traverseTextNode cfg ctx v, st)
  | .element tag attrs children content =>
    if tag = "style" && cfg.cssMinifyEnabled then
      -- style branch (source lines 188-202), then fall through to recursion
      if (getTextContent (.element tag attrs children content)).isEmpty then
        .ok (none, st)  -- `if (!css) return null`
      else
        match css (getTextContent (.element tag attrs children content)) with
        | .ok out =>
          -- recurse over `setTextContentL children out`; one step of the
          -- child map is unrolled so each recursive call is on a subterm
          match children with
          | .nil =>
            -- modified list is a single fresh text node; the map visits it
            match traverseCont cfg css dir docSrc tag content st with
            | .error e => .error e
            | .ok q =>
              .ok (some (.element tag attrs
                    (consOpt (traverseTextNode cfg (some (tag, 1, 0)) out) .nil) q.1),
                   q.2)
          | .cons (.text _) rest =>
            -- first text child overwritten in place; length unchanged
            match traverseList cfg css dir docSrc tag (rest.length + 1) 1 rest st with
            | .error e => .error e
            | .ok p =>
              match traverseCont cfg css dir docSrc tag content p.2 with
              | .error e => .error e
              | .ok q =>
                .ok (some (.element tag attrs
                      (consOpt (traverseTextNode cfg (some (tag, rest.length + 1, 0)) out)
                        p.1) q.1),
                     q.2)
          | .cons h rest =>
            -- fresh text node unshifted before the original children
            match traverse cfg css dir docSrc (some (tag, rest.length + 2, 1)) h st with
            | .error e => .error e
            | .ok p0 =>
              match traverseList cfg css dir docSrc tag (rest.length + 2) 2 rest p0.2 with
              | .error e => .error e
              | .ok p =>
                match traverseCont cfg css dir docSrc tag content p.2 with
                | .error e => .error e
                | .ok q =>
                  .ok (some (.element tag attrs
                        (consOpt (traverseTextNode cfg (some (tag, rest.length + 2, 0)) out)
                          (consOpt p0.1 p.1)) q.1),
                       q.2)
        | .error e =>
          -- keep original style on error, log and continue with the recursion
          match traverseList cfg css dir docSrc tag children.length 0 children
              { st with warnings := st.warnings ++ [cssErrorMsg docSrc e] } with
          | .error e2 => .error e2
          | .ok p =>
            match traverseCont cfg css dir docSrc tag content p.2 with
            | .error e2 => .error e2
            | .ok q => .ok (some (.element tag attrs p.1 q.1), q.2)
    else if tag = "script" then
      scriptStep dir tag attrs children content st
    else
      -- every other node: recurse over children (source lines 252-257)
      match traverseList cfg css dir docSrc tag children.length 0 children st with
      | .error e => .error e
      | .ok p =>
        match traverseCont cfg css dir docSrc tag content p.2 with
        | .error e => .error e
        | .ok q => .ok (some (.element tag attrs p.1 q.1), q.2)
termination_by node.msize
decreasing_by
  all_goals simp [Node.msize, NodeList.msize, ContentOpt.msize] <;> cases content <;>
    simp [ContentOpt.msize, NodeList.msize, Node.msize] <;> omega

/-- Recursion into a template's `content` fragment (source lines 259-262):
only `<template>` elements have their shadow child list processed; its
children see parent `nodeName` `#document-fragment`. -/
def traverseCont (cfg : Config) (css : String → Except String String)
    (dir docSrc : String) (tag : String) (content : ContentOpt) (st : ExtractState) :
    Except JsErr (ContentOpt × ExtractState) :=
  match content with
  | .content l =>
    if tag = "template" then
      match traverseList cfg css dir docSrc "#document-fragment" l.length 0 l st with
      | .error e => .error e
      | .ok p => .ok (.content p.1, p.2)
    else .ok (.content l, st)
  | .noContent => .ok (.noContent, st)
termination_by content.msize
decreasing_by
  all_goals simp [ContentOpt.msize, NodeList.msize]

/-- `node.childNodes.map(child => traverse(child)).filter(Boolean)` with the
state threaded left to right; `plen` is the length of the list being mapped
and `idx` the position of the head in it. -/
def traverseList (cfg : Config) (css : String → Except String String)
    (dir docSrc : String) (ptag : String) (plen idx : Nat) (l : NodeList)
    (st : ExtractState) : Except JsErr (NodeList × ExtractState) :=
  match l with
  | .nil => .ok (.nil, st)
  | .cons h t =>
    match traverse cfg css dir docSrc (some (ptag, plen, idx)) h st with
    | .error e => .error e
    | .ok p =>
      match traverseList cfg css dir docSrc ptag plen (idx + 1) t p.2 with
      | .error e => .error e
      | .ok q => .ok (consOpt p.1 q.1, q.2)
termination_by l.msize
decreasing_by
  all_goals (simp [NodeList.msize, Node.msize]; omega)

end

/-- Entry point of the per-document extraction: `traverse(ast)` starting from
the parsed document root with a fresh `inlineModules` array
(source lines 166-285; the build-wide pieces of the state start empty too). -/
def extractDoc (cfg : Config) (css : String → Except String String)
    (dir docSrc : String) (doc : Node) : Except JsErr (Option Node × ExtractState) :=
  traverse cfg css dir docSrc none doc initState

/-! ### Entry-key synthesis and the final Rollup input object
(source lines 288-311) -/

/-- Keep only ASCII alphanumeric characters: `.replace(/[^a-zA-Z0-9]/g, '')`. -/
def keepAlnum (s : String) : String := ⟨s.data.filter (fun c => c.isAlphanum)⟩

/-- Replace characters outside `[a-zA-Z0-9_.-]` by an underscore:
`.replace(/[^a-zA-Z0-9_.-]/g, '_')`. -/
def sanitizeKeyBase (s : String) : String :=
  ⟨s.data.map (fun c => if c.isAlphanum || c == '_' || c == '.' || c == '-' then c else '_')⟩

/-- The hash part of an input key (source line 291): the external SHA-256
base64url digest (abstracted as `digest`), stripped to alphanumerics and
truncated to 20 characters. -/
def hashPart (digest : String → String) (entry : String) : String :=
  (keepAlnum (digest entry)).take 20

/-- The human-readable part of an input key (source lines 292-295): for an
inline virtual id, `entry.split(':')[1].split('?')[0]`, else the entry
itself; then `path.basename` and sanitization. -/
def keyBasePart (entry : String) : String :=
  let raw :=
    if jsStartsWith entry inlineModuleNs then
      ((splitOnChar '?' ((splitOnChar ':' entry).getD 1 "")).headD "")
    else entry
  sanitizeKeyBase (basename raw)

/-- `const key = keyBase + '_' + hash` (source line 296). -/
def synthKey (digest : String → String) (entry : String) : String :=
  keyBasePart entry ++ "_" ++ hashPart digest entry

/-- JS object property assignment `m[k] = v`: overwrites in place, else
appends (string-keyed JS objects preserve insertion order). -/
def objSet (m : List (String × String)) (k v : String) : List (String × String) :=
  if (m.map Prod.fst).contains k then
    m.map (fun p => if p.1 = k then (k, v) else p)
  else m ++ [(k, v)]

/-- Adding one `rollupHtml` entry to the input object (source lines 289-305):
on a key collision the fallback key `key + '_' + Date.now()` is used (the
timestamp is the abstract parameter `ts`). -/
def addEntry (digest : String → String) (ts : String)
    (m : List (String × String)) (entry : String) : List (String × String) :=
  let key := synthKey digest entry
  if (m.map Prod.fst).contains key then objSet m (key ++ "_" ++ ts) entry
  else objSet m key entry

/-- The final input object (source lines 288-311): non-HTML entries first,
then every collected entry point, then the no-op fallback when the object
would otherwise be empty although HTML inputs were matched
(`htmlCount = Html.length`). -/
def buildRollups (digest : String → String) (ts : String)
    (nonHtml : List (String × String)) (entries : List String)
    (htmlCount : Nat) : List (String × String) :=
  let r := entries.foldl (addEntry digest ts) nonHtml
  if r.isEmpty && htmlCount > 0 then [("_html_noop_entry", noopImportId)] else r

/-! ### Output-path computation and emission (source lines 455-556) -/

/-- The final output-relative path of a document (source lines 459-470 and
530-541): the input key when the original input was an object
(`isWithDest`), the structure-preserving source path under
`preserveStructure` (with `cwdRel` standing for
`path.relative(process.cwd(), absolutePath)` in the absolute-source edge
case), else the flattened basename. -/
def outputName (isWithDest preserve : Bool) (dest src cwdRel : String) : String :=
  if isWithDest then (if jsStartsWith dest "/" then dest.drop 1 else dest)
  else if preserve then (if jsStartsWith src "/" then cwdRel else src)
  else basename src

/-- One stored document record as seen by `generateBundle`: the input key
`dest`, the input value `src`, the `cwdRel` fallback and the serialized HTML
text (serialization itself is the external `parse5.serialize`). -/
structure DocEmit where
  dest : String
  src : String
  cwdRel : String
  htmlText : String
deriving Repr, DecidableEq

def docName (isWithDest preserve : Bool) (d : DocEmit) : String :=
  outputName isWithDest preserve d.dest d.src d.cwdRel

/-- The fatal collision message (source line 546; the quotes around the
option name are elided). -/
def collisionMsg (nm outDir : String) : String :=
  "HTML output filename collision: \"" ++ nm ++ "\" in \"" ++ outDir ++
    "\". Use unique input keys or preserveStructure: true."

/-- The emission loop (source lines 543-556): compute each document's output
file name, track emitted names, and on a collision raise the fatal
`this.error` (which in Rollup throws, stopping the loop); files emitted
before the collision stay emitted.  Returns the emitted
`(fileName, source)` assets in order and the fatal message, if any. -/
def emitDocs (isWithDest preserve : Bool) (outDir : String) :
    List DocEmit → List String → List (String × String) × Option String
  | [], _ => ([], none)
  | d :: ds, emitted =>
    let nm := docName isWithDest preserve d
    if emitted.contains nm then ([], some (collisionMsg nm outDir))
    else
      let r := emitDocs isWithDest preserve outDir ds (nm :: emitted)
      ((nm, d.htmlText) :: r.1, r.2)

def emitAll (isWithDest preserve : Bool) (outDir : String) (docs : List DocEmit) :
    List (String × String) × Option String :=
  emitDocs isWithDest preserve outDir docs []

/-! ### The rewrite pass (source lines 404-525) -/

/-- One chunk of the Rollup output bundle as consulted by the rewrite pass. -/
structure Chunk where
  fileName : String
  facadeModuleId : Option String
  modules : List String
deriving Repr, DecidableEq

/-- Chunk lookup (source lines 439-445): first chunk whose facade module is
the id or whose module set contains it. -/
def findChunk (bundle : List Chunk) (id : String) : Option Chunk :=
  bundle.find? (fun c => c.facadeModuleId == some id || c.modules.contains id)

/-- The `src` of the spliced script tag (source lines 471-481): resolve the
document's output path and the chunk path against the output directory,
take the chunk path relative to the document's directory (already
forward-slash separated in this POSIX model, where the source re-joins with
`'/'`), and prepend `./` when the result starts with neither `.` nor `/`. -/
def chunkRelPath (outDir : List String) (docRel chunkName : String) : String :=
  let outputPath := resolveSegs outDir docRel
  let htmlDir := dirnameSegs outputPath
  let chunkPath := resolveSegs outDir chunkName
  let rel := pathRelative htmlDir chunkPath
  if !(jsStartsWith rel ".") && !(jsStartsWith rel "/") then "./" ++ rel else rel

/-- The replacement script node (source lines 484-493): a `script` element
with `type="module"`, the computed relative `src` and no children.  (The
`namespaceURI` bookkeeping field is not part of the tree model.) -/
def newScriptNode (outDir : List String) (docRel chunkName : String) : Node :=
  .element "script"
    [("type", "module"), ("src", chunkRelPath outDir docRel chunkName)]
    .nil .noContent

/-- Rewriting one reference node whose module id was determined
(source lines 436-455): when the bundle has a matching chunk, the node is
replaced by the freshly built script node. -/
def rewriteReference (bundle : List Chunk) (outDir : List String)
    (docRel id : String) : Option Node :=
  (findChunk bundle id).map (fun c => newScriptNode outDir docRel c.fileName)

/-- `parent.childNodes.splice(index, 1, newScriptNode)` (source line 500):
the reference node, found by identity (`findIndex(child => child === node)`,
positional in an alias-free tree), is replaced in place. -/
def spliceAt (children : NodeList) (i : Nat) (repl : Node) : NodeList :=
  match children, i with
  | .nil, _ => .nil
  | .cons _ t, 0 => .cons repl t
  | .cons h t, n + 1 => .cons h (spliceAt t n repl)

/-! ### Specification-side collectors for the extraction claims

These are written from the specification's description of the extraction
result (discovery order, indices, placeholders) and are compared with what
`traverse` actually produces. -/

/-- Whether a script element (given its attributes and its text content)
produces an inline module record: no truthy `src`, `type="module"`, and text
that survives `code.trim()`. -/
def isInlineModule (attrs : List (String × String)) (code : String) : Bool :=
  !(jsTruthy (jsOfOptStr (findAttr attrs "src"))) &&
  (findAttr attrs "type" == some "module") &&
  !(jsTrim code).isEmpty

/-- The virtual id the extraction gives the `k`-th inline module of a
document whose script carried the given `src` attribute value. -/
def mkVirtualIdAt (srcA : Option String) (k : Nat) : String :=
  inlineModuleNs ++ jsTemplateStr (jsOfOptStr srcA) ++ "?index=" ++ toString k

/-- The inline module record allocated at running index `k`. -/
def mkRecordAt (srcA : Option String) (code : String) (k : Nat) : InlineModule :=
  ⟨mkVirtualIdAt srcA k, code, placeholderMark ++ mkVirtualIdAt srcA k ++ "__"⟩

/-- The records for a list of discovered inline scripts, indexed from `k`. -/
def mkRecords : Nat → List (Option String × String) → List InlineModule
  | _, [] => []
  | k, (sa, c) :: rest => mkRecordAt sa c k :: mkRecords (k + 1) rest

/-! `inlineScripts`: the inline `type="module"` scripts of a tree in
discovery order (the order `traverse` visits them: a node before its
children, children before a template's content fragment; script subtrees are
never descended into). -/
mutual
def inlineScripts : Node → List (Option String × String)
  | .element tag attrs children content =>
    if tag = "script" then
      (if isInlineModule attrs (getTextContent (.element tag attrs children content)) then
        [(findAttr attrs "src", getTextContent (.element tag attrs children content))]
      else [])
    else inlineScriptsL children ++ inlineScriptsC tag content
  | .text _ => []
  | .comment _ => []
def inlineScriptsC (tag : String) : ContentOpt → List (Option String × String)
  | .noContent => []
  | .content l => if tag = "template" then inlineScriptsL l else []
def inlineScriptsL : NodeList → List (Option String × String)
  | .nil => []
  | .cons h t => inlineScripts h ++ inlineScriptsL t
end

/-- Whether a comment text is an extraction placeholder. -/
def isPlaceholder (v : String) : Bool := leadsWith placeholderMark.data v.data

/-! `placeholders`: all placeholder comments of a tree, in document order. -/
mutual
def placeholders : Node → List String
  | .element _ _ children content => placeholdersL children ++ placeholdersC content
  | .text _ => []
  | .comment v => if isPlaceholder v then [v] else []
def placeholdersC : ContentOpt → List String
  | .noContent => []
  | .content l => placeholdersL l
def placeholdersL : NodeList → List String
  | .nil => []
  | .cons h t => placeholders h ++ placeholdersL t
end

def placeholdersOpt : Option Node → List String
  | none => []
  | some n => placeholders n

/-- A child list consisting solely of text nodes (as parse5 guarantees for
`script` and `style` elements). -/
def allTextL : NodeList → Bool
  | .nil => true
  | .cons (.text _) t => allTextL t
  | .cons _ _ => false

/-! `okTree`: well-formedness of an input document for the extraction
claims: script elements carry no truthy `src` attribute (otherwise the pass
throws, see the C2 analysis), script and style elements have only text
children, and no pre-existing comment masquerades as a placeholder. -/
mutual
def okTree : Node → Bool
  | .element tag attrs children content =>
    (if tag = "script" then
      !(jsTruthy (jsOfOptStr (findAttr attrs "src"))) && allTextL children
    else if tag = "style" then allTextL children
    else true) && okTreeL children && okTreeC content
  | .text _ => true
  | .comment v => !(isPlaceholder v)
def okTreeC : ContentOpt → Bool
  | .noContent => true
  | .content l => okTreeL l
def okTreeL : NodeList → Bool
  | .nil => true
  | .cons h t => okTree h && okTreeL t
end

/-! ### Helper lemmas about the collectors -/

theorem mkRecords_append (a b : List (Option String × String)) (k : Nat) :
    mkRecords k (a ++ b) = mkRecords k a ++ mkRecords (k + a.length) b := by
  induction a generalizing k with
  | nil => simp [mkRecords]
  | cons p rest ih =>
    obtain ⟨sa, c⟩ := p
    simp [mkRecords, ih (k + 1)]
    have : k + 1 + rest.length = k + (rest.length + 1) := by omega
    rw [this]

theorem mkRecords_length (k : Nat) (ss : List (Option String × String)) :
    (mkRecords k ss).length = ss.length := by
  induction ss generalizing k with
  | nil => simp [mkRecords]
  | cons p rest ih => obtain ⟨sa, c⟩ := p; simp [mkRecords, ih]

theorem placeholdersL_consOpt (o : Option Node) (l : NodeList) :
    placeholdersL (consOpt o l) = placeholdersOpt o ++ placeholdersL l := by
  cases o <;> simp [consOpt, placeholdersOpt, placeholdersL]

theorem traverseTextNode_placeholders (cfg ctx v) :
    placeholdersOpt (traverseTextNode cfg ctx v) = [] := by
  unfold traverseTextNode
  rcases ctx with _ | ⟨ptag, plen, idx⟩
  · simp [placeholdersOpt, placeholders]
  · dsimp only
    split
    · cases compressTextValue plen idx v <;> simp [placeholdersOpt, placeholders]
    · simp [placeholdersOpt, placeholders]

theorem traverseTextNode_cases (cfg ctx v) :
    traverseTextNode cfg ctx v = none ∨ ∃ w, traverseTextNode cfg ctx v = some (.text w) := by
  unfold traverseTextNode
  rcases ctx with _ | ⟨ptag, plen, idx⟩
  · exact .inr ⟨v, rfl⟩
  · dsimp only
    split
    · cases compressTextValue plen idx v with
      | none => exact .inl rfl
      | some c => exact .inr ⟨c, rfl⟩
    · exact .inr ⟨v, rfl⟩

theorem leadsWith_self_append (a b : List Char) : leadsWith a (a ++ b) = true := by
  induction a with
  | nil => simp [leadsWith]
  | cons c cs ih => simp [leadsWith, ih]

theorem isPlaceholder_mark (s : String) :
    isPlaceholder (placeholderMark ++ s) = true := by
  simp [isPlaceholder, String.data_append, leadsWith_self_append]

theorem allTextL_placeholders : ∀ l : NodeList, allTextL l = true → placeholdersL l = []
  | .nil => by intro h; simp [placeholdersL]
  | .cons hd t => by
    intro h
    cases hd with
    | text v =>
      simp only [allTextL] at h
      simp [placeholdersL, placeholders, allTextL_placeholders t h]
    | element tag attrs children content => simp [allTextL] at h
    | comment v => simp [allTextL] at h

theorem allTextL_inlineScripts : ∀ l : NodeList, allTextL l = true → inlineScriptsL l = []
  | .nil => by intro h; simp [inlineScriptsL]
  | .cons hd t => by
    intro h
    cases hd with
    | text v =>
      simp only [allTextL] at h
      simp [inlineScriptsL, inlineScripts, allTextL_inlineScripts t h]
    | element tag attrs children content => simp [allTextL] at h
    | comment v => simp [allTextL] at h

theorem inlineScriptsC_nontemplate (tag : String) (c : ContentOpt)
    (h : tag ≠ "template") : inlineScriptsC tag c = [] := by
  cases c <;> simp [inlineScriptsC, h]

/-! The untraversed parts of a well-formed tree contain no placeholder
comments. -/

mutual
theorem okTree_placeholders :
    ∀ n : Node, okTree n = true → placeholders n = []
  | .element tag attrs children content => by
    intro h
    simp only [okTree, Bool.and_eq_true] at h
    simp [placeholders, okTreeL_placeholders children h.1.2,
      okTreeC_placeholders content h.2]
  | .text v => by intro h; simp [placeholders]
  | .comment v => by
    intro h
    simp only [okTree] at h
    have hv : isPlaceholder v = false := by revert h; cases isPlaceholder v <;> simp
    simp [placeholders, hv]
theorem okTreeC_placeholders :
    ∀ c : ContentOpt, okTreeC c = true → placeholdersC c = []
  | .noContent => by intro h; simp [placeholdersC]
  | .content l => by
    intro h
    simp only [okTreeC] at h
    simp [placeholdersC, okTreeL_placeholders l h]
theorem okTreeL_placeholders :
    ∀ l : NodeList, okTreeL l = true → placeholdersL l = []
  | .nil => by intro h; simp [placeholdersL]
  | .cons hd t => by
    intro h
    simp only [okTreeL, Bool.and_eq_true] at h
    simp [placeholdersL, okTree_placeholders hd h.1, okTreeL_placeholders t h.2]
end

/-- Mapping the traversal over an all-text child list succeeds, leaves the
state untouched and produces no placeholders (text handling never touches
the threaded state). -/
theorem traverseList_allText (cfg css dir dsrc) :
    ∀ (l : NodeList), allTextL l = true → ∀ (ptag : String) (plen idx : Nat) st,
      ∃ l2, traverseList cfg css dir dsrc ptag plen idx l st = .ok (l2, st) ∧
        placeholdersL l2 = []
  | .nil => by
    intro _ ptag plen idx st
    exact ⟨.nil, by rw [traverseList], by simp [placeholdersL]⟩
  | .cons hd t => by
    intro h ptag plen idx st
    cases hd with
    | text v =>
      simp only [allTextL] at h
      obtain ⟨t2, ht, hp⟩ := traverseList_allText cfg css dir dsrc t h ptag plen (idx + 1) st
      refine ⟨consOpt (traverseTextNode cfg (some (ptag, plen, idx)) v) t2, ?_, ?_⟩
      · rw [traverseList]
        simp only [traverse, ht]
      · rw [placeholdersL_consOpt, traverseTextNode_placeholders, hp]
        simp
    | element tag attrs children content => simp [allTextL] at h
    | comment v => simp [allTextL] at h

/-! ### Branch lemmas for the script step (under a falsy `src`, the only
case a well-formed document reaches) -/

theorem scriptStep_empty (dir tag attrs children content st)
    (hsrc : jsTruthy (jsOfOptStr (findAttr attrs "src")) = false)
    (hdel : (jsTrim (getTextContent (.element tag attrs children content))).isEmpty = true) :
    scriptStep dir tag attrs children content st = .ok (none, st) := by
  simp [scriptStep, hsrc, hdel]

theorem scriptStep_module (dir tag attrs children content st)
    (hsrc : jsTruthy (jsOfOptStr (findAttr attrs "src")) = false)
    (hdel : (jsTrim (getTextContent (.element tag attrs children content))).isEmpty = false)
    (hty : findAttr attrs "type" = some "module") :
    scriptStep dir tag attrs children content st =
      .ok (some (.comment (mkRecordAt (findAttr attrs "src")
              (getTextContent (.element tag attrs children content))
              st.inlineModules.length).value),
           { st with
              rollupHtml := setAdd st.rollupHtml
                (mkVirtualIdAt (findAttr attrs "src") st.inlineModules.length)
              inlineModules := st.inlineModules ++
                [mkRecordAt (findAttr attrs "src")
                  (getTextContent (.element tag attrs children content))
                  st.inlineModules.length] }) := by
  simp [scriptStep, hsrc, hdel, hty, mkRecordAt, mkVirtualIdAt]

theorem scriptStep_nonmodule (dir tag attrs children content st)
    (hsrc : jsTruthy (jsOfOptStr (findAttr attrs "src")) = false)
    (hdel : (jsTrim (getTextContent (.element tag attrs children content))).isEmpty = false)
    (hty : ¬(findAttr attrs "type" = some "module")) :
    scriptStep dir tag attrs children content st =
      .ok (some (.element tag attrs children content), st) := by
  simp [scriptStep, hsrc, hdel, hty]

/-! ### The main extraction invariant

For a well-formed tree the traversal succeeds, appends exactly the records of
the discovered inline module scripts (indexed consecutively from the current
array length, in discovery order), and the output tree's placeholder comments
are exactly those records' placeholder tokens, in the same order. -/

mutual

theorem traverse_extract (cfg : Config) (css : String → Except String String)
    (dir dsrc : String) :
    ∀ (n : Node) (ctx : Option (String × Nat × Nat)) (st : ExtractState),
      okTree n = true →
      ∃ res st2,
        traverse cfg css dir dsrc ctx n st = .ok (res, st2) ∧
        st2.inlineModules =
          st.inlineModules ++ mkRecords st.inlineModules.length (inlineScripts n) ∧
        placeholdersOpt res =
          (mkRecords st.inlineModules.length (inlineScripts n)).map (fun r => r.value)
  | .comment v => by
    intro ctx st h
    simp only [okTree] at h
    have hv : isPlaceholder v = false := by revert h; cases isPlaceholder v <;> simp
    rw [traverse]
    by_cases hrc : cfg.removeComments = true
    · exact ⟨none, st, by simp [hrc], by simp [inlineScripts, mkRecords],
        by simp [placeholdersOpt, inlineScripts, mkRecords]⟩
    · exact ⟨some (.comment v), st, by simp [hrc], by simp [inlineScripts, mkRecords],
        by simp [placeholdersOpt, placeholders, hv, inlineScripts, mkRecords]⟩
  | .text v => by
    intro ctx st h
    exact ⟨traverseTextNode cfg ctx v, st, by rw [traverse],
      by simp [inlineScripts, mkRecords],
      by simp [traverseTextNode_placeholders, inlineScripts, mkRecords]⟩
  | .element tag attrs children content => by
    intro ctx st h
    simp only [okTree, Bool.and_eq_true] at h
    obtain ⟨⟨hbr, hokL⟩, hokC⟩ := h
    rw [traverse]
    split
    next hsty =>
      have htag : tag = "style" := by
        simp only [Bool.and_eq_true, decide_eq_true_eq] at hsty
        exact hsty.1
      subst htag
      have hAT : allTextL children = true := by simpa using hbr
      have hnt : inlineScriptsC "style" content = [] :=
        inlineScriptsC_nontemplate "style" content (by decide)
      split
      next hempty =>
        refine ⟨none, st, rfl, ?_, ?_⟩
        · simp [inlineScripts, allTextL_inlineScripts children hAT, hnt, mkRecords]
        · simp [placeholdersOpt, inlineScripts, allTextL_inlineScripts children hAT,
            hnt, mkRecords]
      next hempty =>
        have hIS : inlineScripts (.element "style" attrs children content) = [] := by
          simp [inlineScripts, allTextL_inlineScripts children hAT, hnt]
        split
        next out hcss =>
          split
          next =>
            -- children = .nil: the style text would have been empty
            simp +decide [getTextContent] at hempty
          next v0 rest =>
            have hAT2 : allTextL rest = true := by simpa [allTextL] using hAT
            obtain ⟨rest2, hres, hplc⟩ :=
              traverseList_allText cfg css dir dsrc rest hAT2 "style" (rest.length + 1) 1 st
            obtain ⟨c2, st2, hcont, hrec2, hplc2⟩ :=
              traverseCont_extract cfg css dir dsrc content "style" st hokC
            refine ⟨some (.element "style" attrs
              (consOpt (traverseTextNode cfg (some ("style", rest.length + 1, 0)) out) rest2)
              c2), st2, ?_, ?_, ?_⟩
            · simp [hres, hcont]
            · rw [hrec2]
              simp [hIS, hnt, mkRecords]
            · rcases traverseTextNode_cases cfg (some ("style", rest.length + 1, 0)) out with
                hT | ⟨w, hT⟩ <;>
                simp [hT, consOpt, placeholdersOpt, placeholders, placeholdersL,
                  hplc, hplc2, hIS, hnt, mkRecords]
          next hd rest hne =>
            -- head of an all-text child list that is not a text node: absurd
            cases hd with
            | text w => exact absurd rfl (hne w)
            | element t2 a2 c2 ct2 => simp [allTextL] at hAT
            | comment w => simp [allTextL] at hAT
        next e hcss =>
          obtain ⟨children2, hres, hplc⟩ :=
            traverseList_allText cfg css dir dsrc children hAT "style" children.length 0
              { st with warnings := st.warnings ++ [cssErrorMsg dsrc e] }
          obtain ⟨c2, st2, hcont, hrec2, hplc2⟩ :=
            traverseCont_extract cfg css dir dsrc content "style"
              { st with warnings := st.warnings ++ [cssErrorMsg dsrc e] } hokC
          refine ⟨some (.element "style" attrs children2 c2), st2, ?_, ?_, ?_⟩
          · simp [hres, hcont]
          · rw [hrec2]
            simp [hIS, hnt, mkRecords]
          · simp [placeholdersOpt, placeholders, hplc, hplc2, hIS, hnt, mkRecords]
    next hsty =>
      split
      next hscr =>
        subst hscr
        have hbr2 : (!jsTruthy (jsOfOptStr (findAttr attrs "src"))) = true ∧
            allTextL children = true := by simpa using hbr
        obtain ⟨hsrc, hAT⟩ := hbr2
        have hsrc2 : jsTruthy (jsOfOptStr (findAttr attrs "src")) = false := by
          revert hsrc; cases jsTruthy (jsOfOptStr (findAttr attrs "src")) <;> simp
        by_cases hdel :
            (jsTrim (getTextContent (.element "script" attrs children content))).isEmpty = true
        · have hmod : isInlineModule attrs
              (getTextContent (.element "script" attrs children content)) = false := by
            simp [isInlineModule, hdel]
          rw [scriptStep_empty dir "script" attrs children content st hsrc2 hdel]
          refine ⟨none, st, rfl, ?_, ?_⟩
          · simp [inlineScripts, hmod, mkRecords]
          · simp [placeholdersOpt, inlineScripts, hmod, mkRecords]
        · have hdel2 :
              (jsTrim (getTextContent (.element "script" attrs children content))).isEmpty
                = false := by
            revert hdel
            cases (jsTrim (getTextContent (.element "script" attrs children content))).isEmpty <;>
              simp
          by_cases hty : findAttr attrs "type" = some "module"
          · have hmod : isInlineModule attrs
                (getTextContent (.element "script" attrs children content)) = true := by
              simp [isInlineModule, hsrc2, hty, hdel2]
            rw [scriptStep_module dir "script" attrs children content st hsrc2 hdel2 hty]
            refine ⟨_, _, rfl, ?_, ?_⟩
            · simp [inlineScripts, hmod, mkRecords]
            · simp [placeholdersOpt, placeholders, inlineScripts, hmod, mkRecords,
                mkRecordAt, String.append_assoc, isPlaceholder_mark]
          · have hmod : isInlineModule attrs
                (getTextContent (.element "script" attrs children content)) = false := by
              simp [isInlineModule, hty]
            rw [scriptStep_nonmodule dir "script" attrs children content st hsrc2 hdel2 hty]
            refine ⟨some (.element "script" attrs children content), st, rfl, ?_, ?_⟩
            · simp [inlineScripts, hmod, mkRecords]
            · simp [placeholdersOpt, placeholders, inlineScripts, hmod, mkRecords,
                allTextL_placeholders children hAT, okTreeC_placeholders content hokC]
      next hscr =>
        obtain ⟨children2, st1, hres1, hrec1, hplc1⟩ :=
          traverseList_extract cfg css dir dsrc children tag children.length 0 st hokL
        obtain ⟨c2, st2, hres2, hrec2, hplc2⟩ :=
          traverseCont_extract cfg css dir dsrc content tag st1 hokC
        refine ⟨some (.element tag attrs children2 c2), st2, ?_, ?_, ?_⟩
        · simp [hres1, hres2]
        · rw [hrec2, hrec1]
          simp [inlineScripts, hscr, mkRecords_append, mkRecords_length,
            List.length_append, List.append_assoc, hrec1]
        · simp [placeholdersOpt, placeholders, hplc1, hplc2, hrec1, inlineScripts, hscr,
            mkRecords_append, List.map_append, mkRecords_length, List.length_append]

theorem traverseCont_extract (cfg : Config) (css : String → Except String String)
    (dir dsrc : String) :
    ∀ (c : ContentOpt) (tag : String) (st : ExtractState),
      okTreeC c = true →
      ∃ c2 st2,
        traverseCont cfg css dir dsrc tag c st = .ok (c2, st2) ∧
        st2.inlineModules =
          st.inlineModules ++ mkRecords st.inlineModules.length (inlineScriptsC tag c) ∧
        placeholdersC c2 =
          (mkRecords st.inlineModules.length (inlineScriptsC tag c)).map (fun r => r.value)
  | .noContent => by
    intro tag st h
    exact ⟨.noContent, st, by rw [traverseCont],
      by simp [inlineScriptsC, mkRecords], by simp [placeholdersC, inlineScriptsC, mkRecords]⟩
  | .content l => by
    intro tag st h
    simp only [okTreeC] at h
    rw [traverseCont]
    by_cases htm : tag = "template"
    · subst htm
      obtain ⟨l2, st2, hres, hrec, hplc⟩ :=
        traverseList_extract cfg css dir dsrc l "#document-fragment" l.length 0 st h
      refine ⟨.content l2, st2, by simp [hres], ?_, ?_⟩
      · simpa [inlineScriptsC] using hrec
      · simpa [inlineScriptsC, placeholdersC] using hplc
    · refine ⟨.content l, st, by simp [htm], ?_, ?_⟩
      · simp [inlineScriptsC, htm, mkRecords]
      · simp [inlineScriptsC, htm, mkRecords, placeholdersC, okTreeL_placeholders l h]

theorem traverseList_extract (cfg : Config) (css : String → Except String String)
    (dir dsrc : String) :
    ∀ (l : NodeList) (ptag : String) (plen idx : Nat) (st : ExtractState),
      okTreeL l = true →
      ∃ l2 st2,
        traverseList cfg css dir dsrc ptag plen idx l st = .ok (l2, st2) ∧
        st2.inlineModules =
          st.inlineModules ++ mkRecords st.inlineModules.length (inlineScriptsL l) ∧
        placeholdersL l2 =
          (mkRecords st.inlineModules.length (inlineScriptsL l)).map (fun r => r.value)
  | .nil => by
    intro ptag plen idx st h
    exact ⟨.nil, st, by rw [traverseList],
      by simp [inlineScriptsL, mkRecords], by simp [placeholdersL, inlineScriptsL, mkRecords]⟩
  | .cons hd t => by
    intro ptag plen idx st h
    simp only [okTreeL, Bool.and_eq_true] at h
    obtain ⟨h1, h2⟩ := h
    obtain ⟨hd2, st1, hres1, hrec1, hplc1⟩ :=
      traverse_extract cfg css dir dsrc hd (some (ptag, plen, idx)) st h1
    obtain ⟨t2, st2, hres2, hrec2, hplc2⟩ :=
      traverseList_extract cfg css dir dsrc t ptag plen (idx + 1) st1 h2
    refine ⟨consOpt hd2 t2, st2, ?_, ?_, ?_⟩
    · rw [traverseList]
      simp [hres1, hres2]
    · rw [hrec2, hrec1]
      simp [inlineScriptsL, mkRecords_append, mkRecords_length, List.length_append,
        List.append_assoc]
    · simp [placeholdersL_consOpt, hplc1, hplc2, hrec1, inlineScriptsL,
        mkRecords_append, List.map_append, mkRecords_length, List.length_append]

end

/-! ### Specification-side text-compression formula (claim C6)

Written from the specification's words: collapse whitespace runs, trim the
leading end exactly when the node is the first child, the trailing end
exactly when it is the last child, and delete the node exactly when the
result is empty. -/

def specCompressText (isFirst isLast : Bool) (v : String) : Option String :=
  let c := jsCollapseWs v
  let c := if isFirst then jsTrimStart c else c
  let c := if isLast then jsTrimEnd c else c
  if c.isEmpty then none else some c

/-! ### Shared concrete fixtures for the claim theorems -/

/-- The configuration from an empty options object (all defaults). -/
def cfgStd : Config := mkConfig ⟨.undefV, .undefV, .undefV, none⟩

/-- The configuration with `lightningcss: { minify: false }`. -/
def cfgNoMin : Config := mkConfig ⟨.undefV, .undefV, .undefV, some (.boolV false)⟩

/-- The configuration with `compressWhitespace: true`. -/
def cfgCW : Config := mkConfig ⟨.undefV, .undefV, .boolV true, none⟩

/-- A style-transform oracle that always succeeds (identity). -/
def idCss : String → Except String String := fun s => .ok s

/-- A style-transform oracle that always throws. -/
def failCss : String → Except String String := fun _ => .error "parse error"

/-! ### Supporting lemmas for the emission and rewrite claims -/

theorem occursIn_middle : ∀ (a b c : List Char), occursIn b (a ++ (b ++ c)) = true
  | [], b, c => by
    cases b with
    | nil => cases c <;> simp [occursIn, leadsWith]
    | cons x xs =>
      simp only [List.nil_append, List.cons_append, occursIn, Bool.or_eq_true]
      exact .inl (by simpa using leadsWith_self_append (x :: xs) c)
  | a0 :: as, b, c => by
    simp [occursIn, occursIn_middle as b c]

theorem strContains_middle (a b c : String) : strContains (a ++ b ++ c) b = true := by
  have h : (a ++ b ++ c).data = a.data ++ (b.data ++ c.data) := by
    simp [String.data_append]
  simp [strContains, h, occursIn_middle]

theorem collisionMsg_contains_name (nm outDir : String) :
    strContains (collisionMsg nm outDir) nm = true := by
  have h : collisionMsg nm outDir =
      "HTML output filename collision: \"" ++ nm ++
        ("\" in \"" ++ outDir ++ "\". Use unique input keys or preserveStructure: true.") := by
    simp [collisionMsg, String.append_assoc]
  rw [h]
  exact strContains_middle _ _ _

theorem collisionMsg_contains_dir (nm outDir : String) :
    strContains (collisionMsg nm outDir) outDir = true := by
  have h : collisionMsg nm outDir =
      ("HTML output filename collision: \"" ++ nm ++ "\" in \"") ++ outDir ++
        "\". Use unique input keys or preserveStructure: true." := by
    simp [collisionMsg, String.append_assoc]
  rw [h]
  exact strContains_middle _ _ _

/-- Processing a prefix of collision-free documents emits them all in order;
the first document whose name was already taken stops the loop with the
fatal message, keeping everything emitted so far. -/
theorem emitDocs_through (isW pres : Bool) (outDir : String) (d : DocEmit)
    (rest : List DocEmit) :
    ∀ (pre : List DocEmit) (seen : List String),
      (∀ nm ∈ pre.map (docName isW pres), nm ∉ seen) →
      (pre.map (docName isW pres)).Nodup →
      (docName isW pres d ∈ seen ∨ docName isW pres d ∈ pre.map (docName isW pres)) →
      emitDocs isW pres outDir (pre ++ d :: rest) seen =
        (pre.map (fun p => (docName isW pres p, p.htmlText)),
         some (collisionMsg (docName isW pres d) outDir))
  | [], seen => by
    intro hdisj hnd hmem
    simp only [List.map_nil, List.not_mem_nil, or_false] at hmem
    simp only [List.nil_append, emitDocs]
    rw [if_pos (by simpa [List.elem_iff] using hmem)]
    simp
  | p :: ps, seen => by
    intro hdisj hnd hmem
    have hp : docName isW pres p ∉ seen := hdisj _ (by simp)
    simp only [List.map_cons, List.nodup_cons] at hnd
    have step := emitDocs_through isW pres outDir d rest ps (docName isW pres p :: seen)
      (by
        intro nm hnm
        simp only [List.mem_cons, not_or]
        exact ⟨fun he => hnd.1 (he ▸ hnm), hdisj nm (by simp [hnm])⟩)
      hnd.2
      (by
        rcases hmem with hmem | hmem
        · exact .inl (by simp [hmem])
        · simp only [List.map_cons, List.mem_cons] at hmem
          rcases hmem with hmem | hmem
          · exact .inl (by simp [hmem])
          · exact .inr hmem)
    simp only [List.cons_append, emitDocs]
    rw [if_neg (by simpa [List.elem_iff] using hp)]
    simp [step]

/-- Stripping a common prefix of components. -/
theorem stripCommon_append (n : List String) :
    ∀ (a b : List String), stripCommon (n ++ a) (n ++ b) = stripCommon a b := by
  induction n with
  | nil => intro a b; simp
  | cons x xs ih => intro a b; simp [stripCommon, ih]

theorem spliceAt_append : ∀ (pre : NodeList) (old repl : Node) (post : NodeList),
    spliceAt (pre.append (.cons old post)) pre.length repl = pre.append (.cons repl post)
  | .nil, old, repl, post => by simp [NodeList.append, NodeList.length, spliceAt]
  | .cons h t, old, repl, post => by
    simp [NodeList.append, NodeList.length, spliceAt, spliceAt_append t old repl post]

/-! ### Concrete documents for the counterexample and bug theorems -/

/-- `<script type="module">console.log(1)</script>` inside a document. -/
def docC1a : Node :=
  .element "#document" []
    (.cons (.element "script" [("type", "module")]
      (.cons (.text "console.log(1)") .nil) .noContent) .nil) .noContent

/-- A different document (different directory, different script text). -/
def docC1b : Node :=
  .element "#document" []
    (.cons (.element "script" [("type", "module")]
      (.cons (.text "alert(2)") .nil) .noContent) .nil) .noContent

/-- `<script src="app.js"></script>` inside a document. -/
def docC2 : Node :=
  .element "#document" []
    (.cons (.element "script" [("src", "app.js")] .nil .noContent) .nil) .noContent

/-- One inline module followed by one local external script. -/
def docC4crash : Node :=
  .element "#document" []
    (.cons (.element "script" [("type", "module")]
        (.cons (.text "init()") .nil) .noContent)
      (.cons (.element "script" [("type", "module"), ("src", "app.js")] .nil .noContent)
        .nil)) .noContent

/-- An inline module whose text is whitespace only. -/
def docC4blank : Node :=
  .element "#document" []
    (.cons (.element "script" [("type", "module")]
      (.cons (.text "   ") .nil) .noContent) .nil) .noContent

/-- Two inline modules with surrounding markup. -/
def docC4w : Node :=
  .element "#document" []
    (.cons (.element "body" []
      (.cons (.element "script" [("type", "module")]
          (.cons (.text "a()") .nil) .noContent)
        (.cons (.text "hi")
          (.cons (.element "script" [("type", "module")]
            (.cons (.text "b()") .nil) .noContent) .nil))) .noContent) .nil) .noContent

theorem mkRecords_map_vid : ∀ (ss : List (Option String × String)) (k : Nat),
    (mkRecords k ss).map (fun r => r.virtualId) =
      ss.mapIdx (fun i p => mkVirtualIdAt p.1 (k + i))
  | [], k => by simp [mkRecords]
  | (sa, c) :: rest, k => by
    rw [mkRecords, List.map_cons, List.mapIdx_cons, mkRecords_map_vid rest (k + 1)]
    have hf : (fun i (p : Option String × String) => mkVirtualIdAt p.1 (k + 1 + i)) =
        fun i (p : Option String × String) => mkVirtualIdAt p.1 (k + (i + 1)) := by
      funext i p
      congr 1
      omega
    rw [hf]
    rfl

/-- C1: the extraction of two distinct documents (different directories,
different source names, different script texts), each holding one inline
module, allocates the *same* virtual identifier
`\x00oy3o-rollup-plugin-html-inline:undefined?index=0` for both: the
interpolated `src` is the script's (absent) `src` attribute, not the owning
document, so the identifier does not encode the document's identity and
collides across documents. -/
theorem c1_virtual_id_not_document_scoped :
    extractDoc cfgStd idCss "/proj/a" "a/index.html" docC1a =
      .ok (some (.element "#document" []
            (.cons (.comment
              "__HTML_MODULE_PLACEHOLDER_\x00oy3o-rollup-plugin-html-inline:undefined?index=0__")
              .nil) .noContent),
        ⟨[⟨"\x00oy3o-rollup-plugin-html-inline:undefined?index=0", "console.log(1)",
            "__HTML_MODULE_PLACEHOLDER_\x00oy3o-rollup-plugin-html-inline:undefined?index=0__"⟩],
          ["\x00oy3o-rollup-plugin-html-inline:undefined?index=0"], []⟩) ∧
    extractDoc cfgStd idCss "/proj/b" "b/index.html" docC1b =
      .ok (some (.element "#document" []
            (.cons (.comment
              "__HTML_MODULE_PLACEHOLDER_\x00oy3o-rollup-plugin-html-inline:undefined?index=0__")
              .nil) .noContent),
        ⟨[⟨"\x00oy3o-rollup-plugin-html-inline:undefined?index=0", "alert(2)",
            "__HTML_MODULE_PLACEHOLDER_\x00oy3o-rollup-plugin-html-inline:undefined?index=0__"⟩],
          ["\x00oy3o-rollup-plugin-html-inline:undefined?index=0"], []⟩) := by
  constructor <;>
    simp +decide [extractDoc, traverse, traverseList, traverseCont, scriptStep,
      traverseTextNode, cfgStd, mkConfig, docC1a, docC1b, getTextContent, jsOfOptStr,
      findAttr, jsTruthy, jsTrim, jsTrimStart, jsTrimEnd, setAdd, initState,
      jsTemplateStr, inlineModuleNs, placeholderMark, consOpt, idCss]

/-- C2: extracting a document containing `<script src="app.js">` raises a
`TypeError` (the source reads `src.value` where `src` is already the
attribute's string value, so `.includes` is called on `undefined`), aborting
that document's processing instead of registering the entry and keeping the
node. -/
theorem c2_local_src_script_type_error :
    extractDoc cfgStd idCss "/proj" "index.html" docC2 = .error .typeError := by
  simp +decide [extractDoc, traverse, traverseList, traverseCont, scriptStep,
    cfgStd, mkConfig, docC2, getTextContent, jsOfOptStr, findAttr, jsTruthy,
    jsGetProp, jsIncludes, initState, idCss]

/-- C4 (counterexample): the claim fails as stated.  First, a document with
one inline module (so N = 1) that also contains a local `src` script is not
extracted at all (the pass throws, see C2), yielding no records.  Second, a
document whose single inline module has non-empty but whitespace-only text
yields zero records instead of one (the code deletes scripts whose text
trims to nothing). -/
theorem c4_counterexample :
    extractDoc cfgStd idCss "/proj" "index.html" docC4crash = .error .typeError ∧
    extractDoc cfgStd idCss "/proj" "index.html" docC4blank =
      .ok (some (.element "#document" [] .nil .noContent), initState) := by
  constructor <;>
    simp +decide [extractDoc, traverse, traverseList, traverseCont, scriptStep,
      cfgStd, mkConfig, docC4crash, docC4blank, getTextContent, jsOfOptStr, findAttr,
      jsTruthy, jsGetProp, jsIncludes, jsTrim, jsTrimStart, jsTrimEnd, initState,
      idCss, consOpt, isJsSpace]

/-- C4 (amended): for every well-formed document (no script carries a truthy
`src` attribute, script/style elements have only text children, no
pre-existing comment starts with the placeholder prefix), extraction
succeeds and produces exactly one inline module record per inline
`type="module"` script whose text does not trim to nothing, in discovery
order; the records' virtual ids embed the consecutive indices 0..N-1, and
the mutated tree contains exactly the corresponding placeholder comments in
the same relative order. -/
theorem c4_inline_extraction_indexed (cfg : Config) (css : String → Except String String)
    (dir dsrc : String) (doc : Node) (h : okTree doc = true) :
    ∃ res st,
      extractDoc cfg css dir dsrc doc = .ok (res, st) ∧
      st.inlineModules = mkRecords 0 (inlineScripts doc) ∧
      st.inlineModules.length = (inlineScripts doc).length ∧
      st.inlineModules.map (fun r => r.virtualId) =
        (inlineScripts doc).mapIdx (fun i p => mkVirtualIdAt p.1 i) ∧
      placeholdersOpt res = st.inlineModules.map (fun r => r.value) := by
  obtain ⟨res, st, heq, hrec, hplc⟩ :=
    traverse_extract cfg css dir dsrc doc none initState h
  refine ⟨res, st, heq, ?_, ?_, ?_, ?_⟩
  · simpa [initState] using hrec
  · simp [initState] at hrec
    simp [hrec, mkRecords_length]
  · simp [initState] at hrec
    simp [hrec, mkRecords_map_vid]
  · simp [initState] at hrec hplc
    simp [hrec, hplc]

/-- C4 (witness): a concrete well-formed document with two inline modules. -/
theorem c4_inline_extraction_indexed_witness :
    okTree docC4w = true ∧
    (∃ res st,
      extractDoc cfgStd idCss "/proj" "index.html" docC4w = .ok (res, st) ∧
      st.inlineModules = mkRecords 0 (inlineScripts docC4w) ∧
      st.inlineModules.length = (inlineScripts docC4w).length ∧
      st.inlineModules.map (fun r => r.virtualId) =
        (inlineScripts docC4w).mapIdx (fun i p => mkVirtualIdAt p.1 i) ∧
      placeholdersOpt res = st.inlineModules.map (fun r => r.value)) :=
  ⟨by decide, c4_inline_extraction_indexed cfgStd idCss "/proj" "index.html" docC4w (by decide)⟩

/-- C6: with whitespace compression enabled and a parent that is not a
literal/verbatim element, the text-node step of the traversal is exactly:
collapse whitespace runs to single spaces, trim the leading end iff the node
is the first child, the trailing end iff it is the last child (hence both
iff it is the only child), and delete the node iff the result is empty (the
specification-side formula `specCompressText`); in particular
`"  hello   world  "` becomes `"hello world"` as an only child and
`"hello world "` as a first child followed by siblings. -/
theorem c6_whitespace_compression :
    (∀ (cfg : Config) (css : String → Except String String) (dir dsrc ptag : String)
        (plen idx : Nat) (v : String) (st : ExtractState),
        cfg.compressWhitespace = true → sensitiveTags.contains ptag = false →
        traverse cfg css dir dsrc (some (ptag, plen, idx)) (.text v) st =
          .ok ((compressTextValue plen idx v).map Node.text, st)) ∧
    (∀ (plen idx : Nat) (v : String), 0 < plen → idx < plen →
        compressTextValue plen idx v =
          specCompressText (idx = 0) (idx = plen - 1) v) ∧
    compressTextValue 1 0 "  hello   world  " = some "hello world" ∧
    compressTextValue 3 0 "  hello   world  " = some "hello world " := by
  refine ⟨?_, ?_, by decide, by decide⟩
  · intro cfg css dir dsrc ptag plen idx v st hcw hsens
    have hns : ptag ∉ sensitiveTags := by
      intro hm
      have hel := List.elem_iff.mpr hm
      rw [show sensitiveTags.elem ptag = sensitiveTags.contains ptag from rfl, hsens] at hel
      exact Bool.false_ne_true hel
    rw [traverse]
    simp [traverseTextNode, hcw, hsens, hns]
  · intro plen idx v h0 hlt
    unfold compressTextValue specCompressText
    by_cases h1 : 1 < plen
    · dsimp only
      rw [if_pos h1]
      simp
    · have hp : plen = 1 := by omega
      have hi : idx = 0 := by omega
      subst hp hi
      simp [jsTrim]

/-- C6 (witness): the traversal step and the equivalence at concrete
inputs. -/
theorem c6_whitespace_compression_witness :
    traverse cfgCW idCss "/p" "d" (some ("div", 3, 0)) (.text "  hello   world  ")
        initState = .ok (some (.text "hello world "), initState) ∧
    compressTextValue 3 0 "  hello   world  " =
      specCompressText true false "  hello   world  " := by
  constructor
  · rw [c6_whitespace_compression.1 cfgCW idCss "/p" "d" "div" 3 0 "  hello   world  "
      initState (by decide) (by decide)]
    rfl
  · have h := c6_whitespace_compression.2.1 3 0 "  hello   world  " (by decide) (by decide)
    simpa using h

/-- C7 (counterexample): with `lightningcss: { minify: false }` the style
branch of the traversal is skipped entirely, so a style node with empty text
content is kept unchanged rather than deleted. -/
theorem c7_counterexample :
    traverse cfgNoMin idCss "/p" "d" none (.element "style" [] .nil .noContent)
      initState = .ok (some (.element "style" [] .nil .noContent), initState) := by
  simp +decide [traverse, traverseList, traverseCont, cfgNoMin, mkConfig, initState]

/-- C7 (amended): when the style transform is enabled (`minify` not set to
`false`): a style node with empty text content is deleted; one with
non-empty text has its text replaced by the transform's output when the
transform succeeds; and when the transform throws, the node is kept with its
original text, a recoverable warning is appended, and the traversal still
succeeds (no abort). -/
theorem c7_style_transform (cfg : Config) (css : String → Except String String)
    (dir dsrc : String) (ctx : Option (String × Nat × Nat))
    (hmin : cfg.cssMinifyEnabled = true) :
    (∀ (attrs : List (String × String)) (children : NodeList) (content : ContentOpt)
        (st : ExtractState),
        getTextContent (.element "style" attrs children content) = "" →
        traverse cfg css dir dsrc ctx (.element "style" attrs children content) st =
          .ok (none, st)) ∧
    (∀ (attrs : List (String × String)) (css0 out : String) (st : ExtractState),
        css0 ≠ "" → css css0 = .ok out →
        traverse cfg css dir dsrc ctx
            (.element "style" attrs (.cons (.text css0) .nil) .noContent) st =
          .ok (some (.element "style" attrs (.cons (.text out) .nil) .noContent), st)) ∧
    (∀ (attrs : List (String × String)) (css0 e : String) (st : ExtractState),
        css0 ≠ "" → css css0 = .error e →
        traverse cfg css dir dsrc ctx
            (.element "style" attrs (.cons (.text css0) .nil) .noContent) st =
          .ok (some (.element "style" attrs (.cons (.text css0) .nil) .noContent),
               { st with warnings := st.warnings ++ [cssErrorMsg dsrc e] })) := by
  refine ⟨?_, ?_, ?_⟩
  · intro attrs children content st hempty
    rw [traverse]
    simp +decide [hmin, hempty]
  · intro attrs css0 out st hne hcss
    have hie : css0.isEmpty = false := by
      rw [Bool.eq_false_iff]
      intro hy
      exact hne ((String.isEmpty_iff css0).mp hy)
    rw [traverse]
    simp +decide [hmin, getTextContent, hcss, hie, traverseTextNode, sensitiveTags,
      consOpt, traverseList, traverseCont]
  · intro attrs css0 e st hne hcss
    have hie : css0.isEmpty = false := by
      rw [Bool.eq_false_iff]
      intro hy
      exact hne ((String.isEmpty_iff css0).mp hy)
    have ht : traverse cfg css dir dsrc
        (some ("style", (NodeList.cons (Node.text css0) NodeList.nil).length, 0))
        (.text css0)
        { st with warnings := st.warnings ++ [cssErrorMsg dsrc e] } =
        .ok (some (.text css0),
          { st with warnings := st.warnings ++ [cssErrorMsg dsrc e] }) := by
      rw [traverse]
      simp +decide [traverseTextNode, sensitiveTags]
    rw [traverse]
    rw [traverseList]
    simp +decide [hmin, getTextContent, hcss, hie, ht, traverseTextNode, sensitiveTags,
      consOpt, traverseList, traverseCont]

/-- C7 (witness): the three behaviours at concrete inputs, with a transform
oracle that throws for the failure case. -/
theorem c7_style_transform_witness :
    traverse cfgStd idCss "/p" "d" none (.element "style" [] .nil .noContent)
        initState = .ok (none, initState) ∧
    traverse cfgStd (fun _ => .ok "q\x7bcolor:red\x7d") "/p" "d" none
        (.element "style" [] (.cons (.text "q \x7b color : red \x7d") .nil) .noContent)
        initState =
      .ok (some (.element "style" [] (.cons (.text "q\x7bcolor:red\x7d") .nil) .noContent),
           initState) ∧
    traverse cfgStd failCss "/p" "d" none
        (.element "style" [] (.cons (.text "q \x7b") .nil) .noContent) initState =
      .ok (some (.element "style" [] (.cons (.text "q \x7b") .nil) .noContent),
           { initState with
              warnings := initState.warnings ++ [cssErrorMsg "d" "parse error"] }) := by
  refine ⟨?_, ?_, ?_⟩
  · exact (c7_style_transform cfgStd idCss "/p" "d" none (by decide)).1 [] .nil .noContent
      initState (by decide)
  · exact (c7_style_transform cfgStd (fun _ => .ok "q\x7bcolor:red\x7d") "/p" "d" none
      (by decide)).2.1 [] "q \x7b color : red \x7d" "q\x7bcolor:red\x7d" initState (by decide) rfl
  · exact (c7_style_transform cfgStd failCss "/p" "d" none (by decide)).2.2 []
      "q \x7b" "parse error" initState (by decide) rfl

theorem pathRelative_append (n a b : List String) :
    pathRelative (n ++ a) (n ++ b) = pathRelative a b := by
  unfold pathRelative
  rw [stripCommon_append]

/-- C3: when a document's computed output path equals one of the previously
emitted ones, the emission loop stops with the fatal collision message: every
document before the colliding one is emitted (in particular the first holder
of the colliding name, whose asset is in the output), the colliding document
is not written, and the message names the colliding path and the output
directory. -/
theorem c3_emission_collision_fatal (isW pres : Bool) (outDir : String)
    (pre : List DocEmit) (d : DocEmit) (rest : List DocEmit)
    (hnd : (pre.map (docName isW pres)).Nodup)
    (hmem : docName isW pres d ∈ pre.map (docName isW pres)) :
    emitAll isW pres outDir (pre ++ d :: rest) =
      (pre.map (fun p => (docName isW pres p, p.htmlText)),
       some (collisionMsg (docName isW pres d) outDir)) ∧
    strContains (collisionMsg (docName isW pres d) outDir) (docName isW pres d) = true ∧
    strContains (collisionMsg (docName isW pres d) outDir) outDir = true ∧
    ∃ d1 ∈ pre, docName isW pres d1 = docName isW pres d ∧
      (docName isW pres d, d1.htmlText) ∈ (emitAll isW pres outDir (pre ++ d :: rest)).1 := by
  have hrun : emitAll isW pres outDir (pre ++ d :: rest) =
      (pre.map (fun p => (docName isW pres p, p.htmlText)),
       some (collisionMsg (docName isW pres d) outDir)) :=
    emitDocs_through isW pres outDir d rest pre [] (by intro nm _; simp) hnd (.inr hmem)
  refine ⟨hrun, collisionMsg_contains_name _ _, collisionMsg_contains_dir _ _, ?_⟩
  obtain ⟨d1, hd1, hname⟩ := List.mem_map.mp hmem
  refine ⟨d1, hd1, hname, ?_⟩
  rw [hrun]
  exact List.mem_map.mpr ⟨d1, hd1, by rw [hname]⟩

/-- C3 (witness): two flattened documents both named `index.html`; the first
is emitted, the second triggers the fatal collision. -/
theorem c3_emission_collision_fatal_witness :
    ([basename "a/index.html"].Nodup ∧
      basename "b/index.html" ∈ [basename "a/index.html"]) ∧
    (emitAll false false "dist"
        [⟨"a", "a/index.html", "", "<p>1</p>"⟩, ⟨"b", "b/index.html", "", "<p>2</p>"⟩] =
      ([("index.html", "<p>1</p>")], some (collisionMsg "index.html" "dist")) ∧
      strContains (collisionMsg "index.html" "dist") "index.html" = true) := by
  constructor
  · constructor
    · decide
    · decide
  · have h := c3_emission_collision_fatal false false "dist"
      [⟨"a", "a/index.html", "", "<p>1</p>"⟩] ⟨"b", "b/index.html", "", "<p>2</p>"⟩ []
      (by decide) (by decide)
    constructor
    · have := h.1
      simpa [docName, outputName, basename, splitPath, jsStartsWith] using this
    · have := h.2.1
      simpa [docName, outputName, basename, splitPath, jsStartsWith] using this

/-- C5: when a reference node's module id resolves to a chunk, the
replacement node is a `script` element with `type="module"`, no children and
`src` equal to the chunk's path relative to the document's output directory
(forward slashes, `./`-prefixed when not already starting with `.` or `/`,
so the src always starts with `.` or `/`); in particular a chunk
`assets/a-1.js` referenced from a document emitted to `sub/page.html` gets
`src="../assets/a-1.js"` for every output directory, and splicing puts the
replacement exactly in the reference node's position. -/
theorem c5_rewrite_spliced_script (outDir : List String) :
    (∀ (bundle : List Chunk) (docRel id : String) (c : Chunk),
      findChunk bundle id = some c →
      rewriteReference bundle outDir docRel id =
        some (.element "script"
          [("type", "module"), ("src", chunkRelPath outDir docRel c.fileName)]
          .nil .noContent)) ∧
    chunkRelPath outDir "sub/page.html" "assets/a-1.js" = "../assets/a-1.js" ∧
    (∀ (docRel chunkName : String),
      jsStartsWith (chunkRelPath outDir docRel chunkName) "." = true ∨
      jsStartsWith (chunkRelPath outDir docRel chunkName) "/" = true) ∧
    (∀ (pre : NodeList) (old repl : Node) (post : NodeList),
      spliceAt (pre.append (.cons old post)) pre.length repl =
        pre.append (.cons repl post)) := by
  have hN : ∀ (l : List String) (a b : String), a ≠ "." → a ≠ ".." → b ≠ "." → b ≠ ".." →
      List.foldl normStep l [a, b] = l ++ [a, b] := by
    intro l a b ha1 ha2 hb1 hb2
    simp [normStep, ha1, ha2, hb1, hb2]
  have h1 : resolveSegs outDir "sub/page.html" =
      outDir.foldl normStep [] ++ ["sub", "page.html"] := by
    unfold resolveSegs
    rw [if_neg (by decide)]
    rw [show splitPath "sub/page.html" = ["sub", "page.html"] from by decide]
    rw [List.foldl_append]
    exact hN _ _ _ (by decide) (by decide) (by decide) (by decide)
  have h2 : resolveSegs outDir "assets/a-1.js" =
      outDir.foldl normStep [] ++ ["assets", "a-1.js"] := by
    unfold resolveSegs
    rw [if_neg (by decide)]
    rw [show splitPath "assets/a-1.js" = ["assets", "a-1.js"] from by decide]
    rw [List.foldl_append]
    exact hN _ _ _ (by decide) (by decide) (by decide) (by decide)
  have hdir : dirnameSegs (outDir.foldl normStep [] ++ ["sub", "page.html"]) =
      outDir.foldl normStep [] ++ ["sub"] := by
    unfold dirnameSegs
    rw [show outDir.foldl normStep [] ++ ["sub", "page.html"] =
      (outDir.foldl normStep [] ++ ["sub"]) ++ ["page.html"] from by simp]
    rw [List.dropLast_concat]
  have hrel : pathRelative (dirnameSegs (resolveSegs outDir "sub/page.html"))
      (resolveSegs outDir "assets/a-1.js") = "../assets/a-1.js" := by
    rw [h1, h2, hdir, pathRelative_append]
    decide
  refine ⟨?_, ?_, ?_, spliceAt_append⟩
  · intro bundle docRel id c h
    simp [rewriteReference, h, newScriptNode]
  · unfold chunkRelPath
    dsimp only
    rw [hrel]
    decide
  · intro docRel chunkName
    unfold chunkRelPath
    dsimp only
    split
    next hcond =>
      left
      have hdata : ("./" ++ pathRelative
          (dirnameSegs (resolveSegs outDir docRel)) (resolveSegs outDir chunkName)).data =
          '.' :: '/' :: (pathRelative (dirnameSegs (resolveSegs outDir docRel))
            (resolveSegs outDir chunkName)).data := by
        rw [String.data_append]
        rfl
      simp [jsStartsWith, hdata, leadsWith]
    next hcond =>
      have := Bool.not_eq_true _ ▸ hcond
      simp only [Bool.and_eq_true, Bool.not_eq_true', not_and_or] at hcond
      rcases hcond with hcond | hcond
      · exact .inl (by simpa using hcond)
      · exact .inr (by simpa using hcond)

/-- C5 (witness): the rewrite of a reference whose id has a facade chunk, at
a concrete output directory and bundle. -/
theorem c5_rewrite_spliced_script_witness :
    findChunk [⟨"assets/a-1.js", some "/proj/a.js", ["/proj/a.js"]⟩] "/proj/a.js" =
      some ⟨"assets/a-1.js", some "/proj/a.js", ["/proj/a.js"]⟩ ∧
    rewriteReference [⟨"assets/a-1.js", some "/proj/a.js", ["/proj/a.js"]⟩] ["dist"]
        "sub/page.html" "/proj/a.js" =
      some (.element "script"
        [("type", "module"), ("src", "../assets/a-1.js")] .nil .noContent) := by
  constructor
  · decide
  · have h := (c5_rewrite_spliced_script ["dist"]).1
      [⟨"assets/a-1.js", some "/proj/a.js", ["/proj/a.js"]⟩] "sub/page.html" "/proj/a.js"
      ⟨"assets/a-1.js", some "/proj/a.js", ["/proj/a.js"]⟩ (by decide)
    rw [h, (c5_rewrite_spliced_script ["dist"]).2.1]

/-- C8: when at least one HTML input matched, the input object handed to the
bundler is never empty: if it would be (no collected entry points and no
non-HTML entries) the no-op placeholder entry is injected. -/
theorem c8_noop_entry :
    (∀ (digest : String → String) (ts : String) (htmlCount : Nat), 0 < htmlCount →
      buildRollups digest ts [] [] htmlCount = [("_html_noop_entry", noopImportId)]) ∧
    (∀ (digest : String → String) (ts : String) (nonHtml : List (String × String))
        (entries : List String) (htmlCount : Nat), 0 < htmlCount →
      0 < (buildRollups digest ts nonHtml entries htmlCount).length) := by
  constructor
  · intro digest ts n h
    simp [buildRollups, h]
  · intro digest ts nonHtml entries n h
    unfold buildRollups
    dsimp only
    split
    · simp
    next hcond =>
      cases hx : entries.foldl (addEntry digest ts) nonHtml with
      | nil => exact absurd (by simp [hx, h]) hcond
      | cons p ps => simp [hx]

/-- C8 (witness): one matched HTML file, no entries at all. -/
theorem c8_noop_entry_witness :
    0 < 1 ∧ buildRollups (fun _ => "d") "t" [] [] 1 =
      [("_html_noop_entry", noopImportId)] :=
  ⟨by decide, c8_noop_entry.1 (fun _ => "d") "t" 1 (by decide)⟩

/-- C9: key synthesis is a pure function of the identifier (same identifier,
same key); identifiers whose sanitized-truncated digests differ (at equal
digest length, e.g. the full 20 characters) get distinct keys regardless of
their basenames; and when two distinct identifiers do collide on the
synthesized key, the second gets the timestamp-suffixed fallback key, both
entries survive under distinct keys, and the final mapping's keys are
pairwise distinct. -/
theorem c9_key_synthesis :
    (∀ (digest : String → String) (e1 e2 : String), e1 = e2 →
      synthKey digest e1 = synthKey digest e2) ∧
    (∀ (digest : String → String) (e1 e2 : String),
      (hashPart digest e1).length = (hashPart digest e2).length →
      hashPart digest e1 ≠ hashPart digest e2 →
      synthKey digest e1 ≠ synthKey digest e2) ∧
    (∀ (digest : String → String) (ts e1 e2 : String), e1 ≠ e2 →
      synthKey digest e1 = synthKey digest e2 →
      buildRollups digest ts [] [e1, e2] 2 =
        [(synthKey digest e1, e1), (synthKey digest e1 ++ "_" ++ ts, e2)] ∧
      synthKey digest e1 ++ "_" ++ ts ≠ synthKey digest e1 ∧
      ((buildRollups digest ts [] [e1, e2] 2).map Prod.fst).Nodup) := by
  have hfb : ∀ (k ts : String), k ++ "_" ++ ts ≠ k := by
    intro k ts hh
    have hlen := congrArg String.length hh
    rw [String.length_append, String.length_append] at hlen
    have h1 : ("_" : String).length = 1 := rfl
    omega
  refine ⟨?_, ?_, ?_⟩
  · intro digest e1 e2 h
    rw [h]
  · intro digest e1 e2 hlen hne heq
    apply hne
    unfold synthKey at heq
    revert hlen heq
    generalize keyBasePart e1 = b1
    generalize keyBasePart e2 = b2
    generalize hashPart digest e1 = h1
    generalize hashPart digest e2 = h2
    intro hlen heq
    cases h1 with
    | mk d1 =>
      cases h2 with
      | mk d2 =>
        have hdata := congrArg String.data heq
        simp only [String.data_append] at hdata
        have hl2 : d1.length = d2.length := by simpa [String.length] using hlen
        exact congrArg String.mk (List.append_inj' hdata (by simpa using hl2)).2
  · intro digest ts e1 e2 hne heq
    have hs1 : addEntry digest ts [] e1 = [(synthKey digest e1, e1)] := by
      simp [addEntry, objSet]
    have hs2 : addEntry digest ts [(synthKey digest e1, e1)] e2 =
        [(synthKey digest e1, e1), (synthKey digest e1 ++ "_" ++ ts, e2)] := by
      rw [addEntry]
      rw [← heq]
      rw [if_pos (by simp)]
      rw [objSet]
      rw [if_neg (by simp [hfb (synthKey digest e1) ts])]
      simp [heq]
    have hstep : buildRollups digest ts [] [e1, e2] 2 =
        [(synthKey digest e1, e1), (synthKey digest e1 ++ "_" ++ ts, e2)] := by
      unfold buildRollups
      dsimp only
      rw [List.foldl_cons, hs1, List.foldl_cons, hs2, List.foldl_nil]
      simp
    refine ⟨hstep, hfb _ _, ?_⟩
    rw [hstep]
    simp [List.nodup_cons, (hfb (synthKey digest e1) ts).symm]

/-- C9 (witness): an engineered collision (a constant digest and two paths
with the same basename). -/
theorem c9_key_synthesis_witness :
    ("x/a.js" ≠ "y/a.js") ∧
    synthKey (fun _ => "") "x/a.js" = synthKey (fun _ => "") "y/a.js" ∧
    (buildRollups (fun _ => "") "123" [] ["x/a.js", "y/a.js"] 2 =
        [(synthKey (fun _ => "") "x/a.js", "x/a.js"),
         (synthKey (fun _ => "") "x/a.js" ++ "_" ++ "123", "y/a.js")] ∧
      synthKey (fun _ => "") "x/a.js" ++ "_" ++ "123" ≠ synthKey (fun _ => "") "x/a.js" ∧
      ((buildRollups (fun _ => "") "123" [] ["x/a.js", "y/a.js"] 2).map Prod.fst).Nodup) :=
  ⟨by decide, by decide,
    c9_key_synthesis.2.2 (fun _ => "") "123" "x/a.js" "y/a.js" (by decide) (by decide)⟩

/-- C10: `preserveStructure` is enabled only by the literal boolean `true`
(`options.preserveStructure === true`); for any other value (including
omission, truthy numbers or strings) the derived flag is `false` and, when
the input was not an object-keyed mapping, every document's output path is
the flattened basename of its source path. -/
theorem c10_preserve_structure_strict :
    (∀ (o : PluginOptions), o.preserveStructure ≠ .boolV true →
      (mkConfig o).preserveStructure = false) ∧
    (∀ (o : PluginOptions), o.preserveStructure = .boolV true →
      (mkConfig o).preserveStructure = true) ∧
    (∀ (o : PluginOptions) (dest src cwdRel : String), o.preserveStructure ≠ .boolV true →
      outputName false (mkConfig o).preserveStructure dest src cwdRel = basename src) := by
  have hb : ∀ (o : PluginOptions), o.preserveStructure ≠ .boolV true →
      (mkConfig o).preserveStructure = false := by
    intro o h
    simp [mkConfig]
    exact h
  refine ⟨hb, ?_, ?_⟩
  · intro o h
    simp [mkConfig, h]
  · intro o dest src cwdRel h
    rw [outputName]
    simp [hb o h]

/-- C10 (witness): a truthy but non-`true` option value still flattens. -/
theorem c10_preserve_structure_strict_witness :
    ((.numV 1 : JsVal) ≠ .boolV true) ∧
    outputName false
        (mkConfig ⟨.numV 1, .undefV, .undefV, none⟩).preserveStructure
        "dest" "pages/a/index.html" "cw" = basename "pages/a/index.html" ∧
    basename "pages/a/index.html" = "index.html" :=
  ⟨by decide,
    c10_preserve_structure_strict.2.2 ⟨.numV 1, .undefV, .undefV, none⟩
      "dest" "pages/a/index.html" "cw" (by decide),
    by decide⟩

end Rph